import Mathlib

/-!
Verification development for the game-state notification and catch-up
subsystem of the Xaya node (ZMQ game-block / game-pending notifications,
the `game_sendupdates` RPC and the `trackedgames` registry).

The subsystem itself is implemented in the node's C++ sources; this file
contains a shallow embedding of its data model and operations, modelled
from the design specification and cross-checked against the behaviour
asserted by the functional tests (`xaya_gameblocks.py`,
`xaya_gamepending.py`, `xaya_trackedgames.py`,
`test_framework/xaya_zmq.py`).
-/

/-- Game identifiers are opaque strings; equality is exact string match. -/
abbrev GameId := String

/-- Decoded JSON-like values, as produced by a duplicate-tolerant reader:
objects keep their entries as an ordered association list, so duplicate
keys are preserved in source order. -/
inductive Json where
  | null : Json
  | bool (b : Bool) : Json
  | num (n : Int) : Json
  | str (s : String) : Json
  | arr (elems : List Json) : Json
  | obj (entries : List (String × Json)) : Json

/-- Entries of a JSON object; non-objects have no entries. -/
def objEntries : Json → List (String × Json)
  | .obj es => es
  | _ => []

/-- Generic association-list lookup (first match wins). -/
def alookup {α β : Type} [DecidableEq α] (k : α) : List (α × β) → Option β
  | [] => none
  | (k', v) :: rest => if k' = k then some v else alookup k rest

/-- Generic association-list update: replace the first binding of the key,
or append a fresh binding at the end. -/
def updAssoc {α β : Type} [DecidableEq α] (k : α) (v : β) : List (α × β) → List (α × β)
  | [] => [(k, v)]
  | (k', v') :: rest => if k' = k then (k, v) :: rest else (k', v') :: updAssoc k v rest

/-- Concatenation of the results of a list-valued function, in order. -/
def concatMap {α β : Type} (f : α → List β) : List α → List β
  | [] => []
  | x :: xs => f x ++ concatMap f xs

/-- Value of the last occurrence of a key in an ordered entry list,
if the key occurs at all. -/
def lookupLast (es : List (String × Json)) (k : String) : Option Json :=
  ((es.filter (fun kv => kv.1 = k)).getLast?).map (fun kv => kv.2)

/-- Splits a character list at the first slash. -/
def splitNameChars : List Char → Option (List Char × List Char)
  | [] => none
  | c :: rest =>
    if c = '/' then some ([], rest)
    else
      match splitNameChars rest with
      | none => none
      | some (ns, base) => some (c :: ns, base)

/-- Splits an on-chain name into its namespace and the base name
(everything after the first slash), e.g. "p/x" into ("p", "x");
names without a slash have no namespace. -/
def splitName (n : String) : Option (String × String) :=
  match splitNameChars n.data with
  | none => none
  | some (ns, base) => some (String.mk ns, String.mk base)

/-- Previous outpoint consumed by a transaction input. -/
structure OutPoint where
  txid : String
  vout : Nat
deriving DecidableEq

/-- Destination of a transaction output: an ordinary address, or a
provably unspendable burn output with an optional label. -/
inductive TxDest where
  | addr (a : String) : TxDest
  | burn (label : Option String) : TxDest
deriving DecidableEq

/-- Transaction output with its value in base units. -/
structure TxOut where
  value : Int
  dest : TxDest
deriving DecidableEq

/-- Modelled from the spec: the name-operation attached to a transaction,
as supplied by the external name-value collaborator.  `value = none`
stands for a malformed value that fails to decode; extraction skips it. -/
structure NameOp where
  name : String
  value : Option Json

/-- Transaction as seen by the subsystem: txid, bare txid (hash variant
ignoring witness data), optional name operation, consumed inputs and
produced outputs. -/
structure Tx where
  txid : String
  btxid : String
  nameOp : Option NameOp
  inputs : List OutPoint
  outputs : List TxOut

/-- Block metadata carried by attach and detach notifications. -/
structure BlockInfo where
  hash : String
  parent : String
  height : Nat
  timestamp : Int
  medianTime : Int
  rngSeed : String
deriving DecidableEq

/-- Block as delivered by the chain engine: metadata plus ordered
transactions. -/
structure Block where
  info : BlockInfo
  txs : List Tx

/-- Adds an amount for an address into the out map, merging duplicate
destinations by summation. -/
def addOut (a : String) (v : Int) : List (String × Int) → List (String × Int)
  | [] => [(a, v)]
  | (a', v') :: rest => if a' = a then (a, v' + v) :: rest else (a', v') :: addOut a v rest

/-- Modelled from the spec: the `out` map of a move, summing every
ordinary (non-burn) output's value by destination address. -/
def outMap : List TxOut → List (String × Int)
  | [] => []
  | o :: rest =>
    match o.dest with
    | .addr a => addOut a o.value (outMap rest)
    | .burn _ => outMap rest

/-- Modelled from the spec: total value of burn outputs whose label
matches `g/<gameId>` exactly; unlabeled burns or burns for other games
contribute nothing. -/
def burntFor (g : GameId) : List TxOut → Int
  | [] => 0
  | o :: rest =>
    match o.dest with
    | .burn (some l) => (if l = "g/" ++ g then o.value else 0) + burntFor g rest
    | _ => burntFor g rest

/-- Entry lists of all object-valued occurrences of the "g" field in a
decoded move value, in source order.  Non-object occurrences of "g" are
skipped. -/
def gObjects (es : List (String × Json)) : List (List (String × Json)) :=
  (es.filter (fun kv => kv.1 = "g")).filterMap (fun kv =>
    match kv.2 with
    | .obj o => some o
    | _ => none)

/-- Modelled from the spec: the duplicate-tolerant move-channel lookup.
All entries of all object-valued "g" occurrences are folded in source
order with last-write-wins per game key, as exercised by the
duplicate-key functional tests. -/
def gameMoveLookup (es : List (String × Json)) (g : GameId) : Option Json :=
  lookupLast (concatMap (fun o => o) (gObjects es)) g

/-- Spec-worded formulation for the duplicate-key policy: the payload is
the last occurrence of the game's key within the last "g" object that
contains that key. -/
def lastOccurrenceSpec (es : List (String × Json)) (g : GameId) : Option Json :=
  (((gObjects es).filter (fun o => o.any (fun kv => kv.1 = g))).getLast?).bind
    (fun o => lookupLast o g)

/-- Move extracted for one (transaction, game) pair.  The `name` field
carries the updated name with its namespace stripped, as asserted
by the functional tests. -/
structure Move where
  txid : String
  btxid : String
  name : String
  game : GameId
  move : Json
  inputs : List OutPoint
  out : List (String × Int)
  burnt : Int

/-- Admin command extracted from one transaction for one game. -/
structure AdminEntry where
  txid : String
  cmd : Json

/-- Modelled from the spec: MoveExtractor's per-transaction move channel.
A move for game `g` exists when the transaction carries a decodable name
operation on a "p/" name whose value's "g" objects bind `g`; the
move value is the last-write-wins binding. -/
def moveForGame (g : GameId) (tx : Tx) : Option Move :=
  match tx.nameOp with
  | none => none
  | some no =>
    match no.value with
    | none => none
    | some v =>
      match splitName no.name with
      | none => none
      | some (ns, base) =>
        if ns = "p" then
          (gameMoveLookup (objEntries v) g).map (fun mv =>
            { txid := tx.txid, btxid := tx.btxid, name := base, game := g,
              move := mv, inputs := tx.inputs, out := outMap tx.outputs,
              burnt := burntFor g tx.outputs })
        else none

/-- Payload values of all occurrences of the "cmd" key in a decoded
admin value, in source order. -/
def cmdOccurrences (es : List (String × Json)) : List Json :=
  (es.filter (fun kv => kv.1 = "cmd")).map (fun kv => kv.2)

/-- Modelled from the spec: MoveExtractor's admin channel.  A
transaction updating the reserved name "g/<g>" yields one AdminEntry per
"cmd" occurrence in its value, in in-value occurrence order (duplicates
within one value are all preserved, as exercised by the duplicate-cmd
functional test). -/
def adminForGame (g : GameId) (tx : Tx) : List AdminEntry :=
  match tx.nameOp with
  | none => []
  | some no =>
    match no.value with
    | none => []
    | some v =>
      match splitName no.name with
      | none => []
      | some (ns, base) =>
        if ns = "g" ∧ base = g then
          (cmdOccurrences (objEntries v)).map (fun c => { txid := tx.txid, cmd := c })
        else []

/-- Attach/Detach message payload for one game and one block: block
metadata, ordered moves, ordered admin entries and the optional
catch-up correlation token. -/
structure GameBlockData where
  game : GameId
  block : BlockInfo
  moves : List Move
  admin : List AdminEntry
  reqtoken : Option String

/-- Modelled from the spec: the per-game payload of a block, preserving
transaction order within the block. -/
def blockDataFor (g : GameId) (tok : Option String) (b : Block) : GameBlockData :=
  { game := g, block := b.info,
    moves := b.txs.filterMap (moveForGame g),
    admin := concatMap (adminForGame g) b.txs,
    reqtoken := tok }

/-- Messages published on the game notification channels. -/
inductive Msg where
  | attach (d : GameBlockData) : Msg
  | detach (d : GameBlockData) : Msg
  | pending (g : GameId) (m : Move) : Msg

/-- Game a message is addressed to (the message topic's game id). -/
def msgGame : Msg → GameId
  | .attach d => d.game
  | .detach d => d.game
  | .pending g _ => g

/-- Projection of attach messages to their payload. -/
def attachData? : Msg → Option GameBlockData
  | .attach d => some d
  | _ => none

/-- Projection of detach messages to their payload. -/
def detachData? : Msg → Option GameBlockData
  | .detach d => some d
  | _ => none

/-- Whether a message is a detach message. -/
def Msg.isDetach : Msg → Bool
  | .detach _ => true
  | _ => false

/-- Whether a message is an attach message. -/
def Msg.isAttach : Msg → Bool
  | .attach _ => true
  | _ => false

/-- Whether a message is a pending-move message. -/
def Msg.isPending : Msg → Bool
  | .pending _ _ => true
  | _ => false

/-- Modelled from the spec: state of the live notification subsystem.
`tracked` is the TrackedGames registry; `attachCache` is the look-back
cache of recently published attach payloads keyed by block hash, used to
reproduce the exact prior Attach when a block is disconnected. -/
structure NotifierState where
  tracked : List GameId
  attachCache : List (String × List GameBlockData)

/-- Attach payloads published for one connected block, one per tracked
game, in registry order. -/
def attachBlock (tracked : List GameId) (b : Block) : List GameBlockData :=
  tracked.map (fun g => blockDataFor g none b)

/-- Events driving the live subsystem: a chain update (blocks
disconnected tip-first, then blocks connected in chain order), a mempool
acceptance, and registry mutations via the trackedgames operation. -/
inductive Event where
  | update (olds news : List Block) : Event
  | accept (tx : Tx) : Event
  | track (g : GameId) : Event
  | untrack (g : GameId) : Event

/-- Pending-move messages published for one mempool transaction: one per
tracked game for which the transaction carries a move. -/
def pendingMsgs (tracked : List GameId) (tx : Tx) : List Msg :=
  tracked.filterMap (fun g => (moveForGame g tx).map (fun mv => Msg.pending g mv))

/-- Modelled from the spec: one step of the live subsystem.  A chain
update publishes the detach messages for the disconnected blocks
(replaying the cached attach payloads; the payload is recomputed only on
a cache miss), then the attach messages for the connected blocks, and
then re-announces as pending the moves of transactions returned to the
mempool; a mempool acceptance publishes pending moves immediately;
registry mutations are idempotent and publish nothing. -/
def stepEvent (st : NotifierState) : Event → NotifierState × List Msg
  | .update olds news =>
    let detachMsgs := concatMap
      (fun b => ((alookup b.info.hash st.attachCache).getD (attachBlock st.tracked b)).map Msg.detach)
      olds
    let attachMsgs := concatMap
      (fun b => (attachBlock st.tracked b).map Msg.attach) news
    let cache' := news.foldl
      (fun c b => (b.info.hash, attachBlock st.tracked b) :: c) st.attachCache
    let newTxids := concatMap (fun b => b.txs.map (fun tx => tx.txid)) news
    let returned := (concatMap (fun b => b.txs) olds).filter
      (fun tx => ¬ (tx.txid ∈ newTxids))
    let pendMsgs := concatMap (pendingMsgs st.tracked) returned
    ({ st with attachCache := cache' }, detachMsgs ++ attachMsgs ++ pendMsgs)
  | .accept tx => (st, pendingMsgs st.tracked tx)
  | .track g =>
    ({ st with tracked := if g ∈ st.tracked then st.tracked else st.tracked ++ [g] }, [])
  | .untrack g =>
    ({ st with tracked := st.tracked.filter (fun g' => g' ≠ g) }, [])

/-- Runs the live subsystem over a list of events, collecting the whole
published message stream in order. -/
def runEvents : NotifierState → List Event → NotifierState × List Msg
  | st, [] => (st, [])
  | st, e :: es =>
    let p := stepEvent st e
    let q := runEvents p.1 es
    (q.1, p.2 ++ q.2)

/-- Modelled from the spec: the block index exposed by the chain engine,
supporting lookup by hash and ancestry walks via parent hashes. -/
structure ChainIndex where
  blocks : List Block

/-- Looks a block up by hash in the index. -/
def findBlock (idx : ChainIndex) (h : String) : Option Block :=
  idx.blocks.find? (fun b => b.info.hash = h)

/-- Walks the ancestry of a block through parent hashes, with fuel
bounding the walk (one step per height unit suffices on well-formed
chains). -/
def ancestryAux (idx : ChainIndex) : Nat → Option Block → List Block
  | 0, _ => []
  | _ + 1, none => []
  | n + 1, some b => b :: ancestryAux idx n (findBlock idx b.info.parent)

/-- Ancestor chain of a block, the block itself first. -/
def ancestry (idx : ChainIndex) (b : Block) : List Block :=
  ancestryAux idx (b.info.height + 1) (some b)

/-- Modelled from the spec: the ancestor computation of CatchUpEngine.
Returns the common ancestor of `fromB` and `toB`, the detach path (from
`fromB` down to, excluding, the ancestor) and the full uncapped attach
path (from the ancestor, exclusive, up to `toB`, in chain order). -/
def catchupPaths (idx : ChainIndex) (fromB toB : Block) :
    Option (Block × List Block × List Block) :=
  let fc := ancestry idx fromB
  let tc := ancestry idx toB
  let isCommon : Block → Bool := fun b => tc.any (fun t => t.info.hash = b.info.hash)
  match fc.find? isCommon with
  | none => none
  | some anc =>
    let dp := fc.takeWhile (fun b => ¬ isCommon b)
    let ap := (tc.takeWhile (fun b => b.info.hash ≠ anc.info.hash)).reverse
    some (anc, dp, ap)

/-- Step counts reported by a catch-up call. -/
structure StepsInfo where
  attach : Nat
  detach : Nat
deriving DecidableEq

/-- Result object of a catch-up call: the block actually reached, the
common ancestor, the correlation token and the step counts. -/
structure UpdResult where
  toblock : String
  ancestor : String
  reqtoken : String
  steps : StepsInfo
deriving DecidableEq

/-- Outcome of a catch-up call: the result object plus the messages
published to the requesting channel. -/
structure UpdOutcome where
  res : UpdResult
  msgs : List Msg

/-- Caller errors of a catch-up call. -/
inductive UpdError where
  | fromNotFound : UpdError
  | toNotFound : UpdError
  | noAncestor : UpdError
deriving DecidableEq

/-- Modelled from the spec: the CatchUpEngine (`game_sendupdates`).
Validates both block hashes (unknown fromblock and toblock are distinct
caller errors), computes the common ancestor, publishes the detach
messages for the path from fromblock down to the ancestor (never capped)
and then the attach messages for the path from the ancestor toward
toblock capped at `maxAtt` steps; all messages carry the call's
correlation token.  The reported toblock is the last block actually
attached (the ancestor itself when no attach step was taken).  The
tracked-games registry is not consulted on this path. -/
def gameSendupdates (maxAtt : Nat) (idx : ChainIndex) (g : GameId) (tok : String)
    (fromH toH : String) : Except UpdError UpdOutcome :=
  match findBlock idx fromH with
  | none => .error .fromNotFound
  | some fromB =>
    match findBlock idx toH with
    | none => .error .toNotFound
    | some toB =>
      match catchupPaths idx fromB toB with
      | none => .error .noAncestor
      | some (anc, dp, ap) =>
        let aps := ap.take maxAtt
        let toblk :=
          match aps.getLast? with
          | some b => b.info.hash
          | none => anc.info.hash
        .ok { res := { toblock := toblk, ancestor := anc.info.hash, reqtoken := tok,
                       steps := { attach := aps.length, detach := dp.length } },
              msgs := (dp.map (fun b => Msg.detach (blockDataFor g (some tok) b)))
                      ++ (aps.map (fun b => Msg.attach (blockDataFor g (some tok) b))) }

/-- Modelled from the spec: the RPC surface of `game_sendupdates` as
exercised by the functional tests.  The second positional argument is
the fromblock and the third is the toblock; an omitted toblock defaults
to the current chain tip (the error-message assertions of the tests pin
this order: an unknown second argument fails with "fromblock not
found"). -/
def gameSendupdatesRPC (maxAtt : Nat) (idx : ChainIndex) (tipH : String) (g : GameId)
    (tok : String) (arg2 arg3 : Option String) : Except UpdError UpdOutcome :=
  gameSendupdates maxAtt idx g tok (arg2.getD tipH) (arg3.getD tipH)

/-- Wire message of the Publisher: topic, game id and the per-(topic,
game) sequence number attached at publication time. -/
structure WireMsg where
  topic : String
  game : GameId
  seq : Nat
deriving DecidableEq

/-- Modelled from the spec: the Publisher's sequence numbering.  Each
published message is stamped with the current counter of its (topic,
gameId) pair, and that counter alone is incremented by one. -/
def publishSeq : List (String × GameId) → List ((String × GameId) × Nat) → List WireMsg
  | [], _ => []
  | p :: ps, ctrs =>
    let n := (alookup p ctrs).getD 0
    { topic := p.1, game := p.2, seq := n } :: publishSeq ps (updAssoc p (n + 1) ctrs)

/-- Runs the Publisher from a fresh process start (all counters zero). -/
def runPublisher (ps : List (String × GameId)) : List WireMsg :=
  publishSeq ps []

/-- Projection of a message stream to the attach or detach payloads
addressed to one game and one block hash. -/
def blockMsgsFor (proj : Msg → Option GameBlockData) (g : GameId) (h : String)
    (msgs : List Msg) : List GameBlockData :=
  (msgs.filterMap proj).filter (fun d => d.game = g ∧ d.block.hash = h)

/-- Cache consistency: every cached payload list is keyed by the hash of
the block it was built from. -/
def CacheOK (st : NotifierState) : Prop :=
  ∀ h ds, alookup h st.attachCache = some ds → ∀ d ∈ ds, d.block.hash = h

/-- Whether an event connects a block with the given hash. -/
def connectsHash (h : String) : Event → Bool
  | .update _ news => news.any (fun b => b.info.hash = h)
  | _ => false

/-- Whether an event is a trackedgames addition of the given game. -/
def isTrackOf (g : GameId) : Event → Bool
  | .track g' => g' = g
  | _ => false

/-- Absence of a game from the notifier's persistent state: the game is
not tracked, and no cached attach payload is addressed to it. -/
def avoidsGame (g : GameId) (st : NotifierState) : Prop :=
  g ∉ st.tracked ∧ ∀ h ds, alookup h st.attachCache = some ds → ∀ d ∈ ds, d.game ≠ g

/-- Concrete fixture: a "p/x" name update carrying a move for game "a"
(the shape registered by the functional tests). -/
def txA : Tx :=
  { txid := "t1", btxid := "bt1",
    nameOp := some { name := "p/x", value := some (.obj [("g", .obj [("a", .num 42)])]) },
    inputs := [{ txid := "prev", vout := 0 }],
    outputs := [{ value := 100, dest := .addr "addr1" }] }

/-- Move extracted from `txA` for game "a". -/
def mvA : Move :=
  { txid := "t1", btxid := "bt1", name := "x", game := "a", move := .num 42,
    inputs := [{ txid := "prev", vout := 0 }], out := [("addr1", 100)], burnt := 0 }

/-- Concrete block fixture containing `txA`. -/
def blkB1 : Block :=
  { info := { hash := "b1", parent := "b0", height := 1, timestamp := 1001,
              medianTime := 991, rngSeed := "s1" }, txs := [txA] }

/-- Concrete fixture: a previously connected block on top of "b0". -/
def oldBlk : Block :=
  { info := { hash := "o1", parent := "b0", height := 1, timestamp := 1002,
              medianTime := 992, rngSeed := "so1" }, txs := [txA] }

/-- Concrete fixture: first block of a replacement branch on top of "b0". -/
def newBlk1 : Block :=
  { info := { hash := "n1", parent := "b0", height := 1, timestamp := 1003,
              medianTime := 993, rngSeed := "sn1" }, txs := [] }

/-- Concrete fixture: second block of the replacement branch. -/
def newBlk2 : Block :=
  { info := { hash := "n2", parent := "n1", height := 2, timestamp := 1004,
              medianTime := 994, rngSeed := "sn2" }, txs := [] }

/-- Concrete linear chain fixture, block at height 0. -/
def cblk0 : Block :=
  { info := { hash := "c0", parent := "", height := 0, timestamp := 2000,
              medianTime := 1990, rngSeed := "r0" }, txs := [] }

/-- Concrete linear chain fixture, block at height 1. -/
def cblk1 : Block :=
  { info := { hash := "c1", parent := "c0", height := 1, timestamp := 2001,
              medianTime := 1991, rngSeed := "r1" }, txs := [] }

/-- Concrete linear chain fixture, block at height 2. -/
def cblk2 : Block :=
  { info := { hash := "c2", parent := "c1", height := 2, timestamp := 2002,
              medianTime := 1992, rngSeed := "r2" }, txs := [] }

/-- Concrete linear chain fixture, block at height 3. -/
def cblk3 : Block :=
  { info := { hash := "c3", parent := "c2", height := 3, timestamp := 2003,
              medianTime := 1993, rngSeed := "r3" }, txs := [] }

/-- Concrete linear chain fixture, block at height 4. -/
def cblk4 : Block :=
  { info := { hash := "c4", parent := "c3", height := 4, timestamp := 2004,
              medianTime := 1994, rngSeed := "r4" }, txs := [] }

/-- Block index over the concrete linear chain c0..c4. -/
def idxFix : ChainIndex := { blocks := [cblk0, cblk1, cblk2, cblk3, cblk4] }

/-- Concrete fixture: a "g/a" update whose value repeats the "cmd" key
three times, as in the duplicate-admin-command functional test. -/
def cmdTx3 : Tx :=
  { txid := "tc", btxid := "btc",
    nameOp := some
      { name := "g/a",
        value := some (.obj [("z", .str "i1"), ("cmd", .str "first"), ("y", .str "i2"),
                             ("cmd", .str "second"), ("z", .str "i3"), ("cmd", .str "third")]) },
    inputs := [], outputs := [] }

/-- Concrete fixture: first of two admin transactions for game "a". -/
def adminTx1 : Tx :=
  { txid := "ta1", btxid := "bta1",
    nameOp := some { name := "g/a", value := some (.obj [("cmd", .str "one")]) },
    inputs := [], outputs := [] }

/-- Concrete fixture: second of two admin transactions for game "a". -/
def adminTx2 : Tx :=
  { txid := "ta2", btxid := "bta2",
    nameOp := some { name := "g/a", value := some (.obj [("cmd", .num 2)]) },
    inputs := [], outputs := [] }

/-- Concrete fixture: a block with two admin transactions for game "a". -/
def adminBlk : Block :=
  { info := { hash := "ab1", parent := "b0", height := 1, timestamp := 1005,
              medianTime := 995, rngSeed := "sa1" }, txs := [adminTx1, adminTx2] }

/-- Concrete fixture: the duplicate-key move document of the functional
tests ("g" occurs four times, once with a non-object value). -/
def dupDoc : List (String × Json) :=
  [("z", .str "i1"),
   ("g", .obj [("a", .str "a1"), ("x", .str "ignored")]),
   ("y", .str "i2"),
   ("g", .obj [("a", .str "a2"), ("b", .str "b1")]),
   ("g", .num 42),
   ("g", .obj [("b", .str "b2")]),
   ("x", .str "i3")]

/-- Concrete fixture: a "p/x" update carrying the duplicate-key document. -/
def dupTx : Tx :=
  { txid := "td", btxid := "btd",
    nameOp := some { name := "p/x", value := some (.obj dupDoc) },
    inputs := [], outputs := [] }

/-- Concrete fixture: initial notifier state tracking games "a" and "b"
with an empty attach cache. -/
def stW : NotifierState := { tracked := ["a", "b"], attachCache := [] }

/-- Concrete fixture: notifier state tracking game "a" whose cache holds
the attach payload previously published for `oldBlk`. -/
def stC2 : NotifierState :=
  { tracked := ["a"], attachCache := [("o1", attachBlock ["a"] oldBlk)] }

theorem concatMap_append {α β : Type} (f : α → List β) (l1 l2 : List α) :
    concatMap f (l1 ++ l2) = concatMap f l1 ++ concatMap f l2 := by
  induction l1 with
  | nil => rfl
  | cons x xs ih => simp [concatMap, ih]

theorem filterMap_concatMap {α β γ : Type} (p : β → Option γ) (f : α → List β)
    (l : List α) :
    (concatMap f l).filterMap p = concatMap (fun x => (f x).filterMap p) l := by
  induction l with
  | nil => rfl
  | cons x xs ih => simp [concatMap, ih]

theorem filter_concatMap {α β : Type} (p : β → Bool) (f : α → List β) (l : List α) :
    (concatMap f l).filter p = concatMap (fun x => (f x).filter p) l := by
  induction l with
  | nil => rfl
  | cons x xs ih => simp [concatMap, ih]

theorem concatMap_congr {α β : Type} {f f' : α → List β} {l : List α}
    (h : ∀ x ∈ l, f x = f' x) : concatMap f l = concatMap f' l := by
  induction l with
  | nil => rfl
  | cons x xs ih =>
    simp only [concatMap, h x (List.mem_cons_self x xs)]
    rw [ih (fun y hy => h y (List.mem_cons_of_mem x hy))]

theorem mem_concatMap {α β : Type} {f : α → List β} {l : List α} {y : β} :
    y ∈ concatMap f l ↔ ∃ x ∈ l, y ∈ f x := by
  induction l with
  | nil => simp [concatMap]
  | cons x xs ih => simp [concatMap, ih]

theorem filterMap_attachData_map_detach (ds : List GameBlockData) :
    (ds.map Msg.detach).filterMap attachData? = [] := by
  induction ds with
  | nil => rfl
  | cons d rest ih => simp [attachData?, ih]

theorem filterMap_attachData_map_attach (ds : List GameBlockData) :
    (ds.map Msg.attach).filterMap attachData? = ds := by
  induction ds with
  | nil => rfl
  | cons d rest ih => simp [attachData?, ih]

theorem filterMap_detachData_map_detach (ds : List GameBlockData) :
    (ds.map Msg.detach).filterMap detachData? = ds := by
  induction ds with
  | nil => rfl
  | cons d rest ih => simp [detachData?, ih]

theorem filterMap_detachData_map_attach (ds : List GameBlockData) :
    (ds.map Msg.attach).filterMap detachData? = [] := by
  induction ds with
  | nil => rfl
  | cons d rest ih => simp [detachData?, ih]

theorem filterMap_attachData_pendingMsgs (tracked : List GameId) (tx : Tx) :
    (pendingMsgs tracked tx).filterMap attachData? = [] := by
  induction tracked with
  | nil => rfl
  | cons g rest ih =>
    simp only [pendingMsgs, List.filterMap_cons] at ih ⊢
    cases h : moveForGame g tx with
    | none => simpa [h] using ih
    | some mv => simpa [h, attachData?] using ih

theorem filterMap_detachData_pendingMsgs (tracked : List GameId) (tx : Tx) :
    (pendingMsgs tracked tx).filterMap detachData? = [] := by
  induction tracked with
  | nil => rfl
  | cons g rest ih =>
    simp only [pendingMsgs, List.filterMap_cons] at ih ⊢
    cases h : moveForGame g tx with
    | none => simpa [h] using ih
    | some mv => simpa [h, detachData?] using ih

theorem alookup_updAssoc_self {α β : Type} [DecidableEq α] (k : α) (v : β)
    (l : List (α × β)) : alookup k (updAssoc k v l) = some v := by
  induction l with
  | nil => simp [alookup, updAssoc]
  | cons kv rest ih =>
    rcases kv with ⟨k', v'⟩
    by_cases h : k' = k
    · simp [updAssoc, alookup, h]
    · simp [updAssoc, alookup, h, ih]

theorem alookup_updAssoc_ne {α β : Type} [DecidableEq α] {k k' : α} (v : β)
    (l : List (α × β)) (h : k' ≠ k) :
    alookup k' (updAssoc k v l) = alookup k' l := by
  induction l with
  | nil =>
    simp only [updAssoc, alookup]
    rw [if_neg (fun he : k = k' => h he.symm)]
  | cons kv rest ih =>
    rcases kv with ⟨k'', v''⟩
    by_cases h2 : k'' = k
    · subst h2
      have hne : ¬ k'' = k' := fun he => h he.symm
      simp only [updAssoc, if_pos rfl, alookup]
      rw [if_neg hne, if_neg hne]
    · simp [updAssoc, alookup, h2, ih]

theorem filter_eq_single_of_count_one {α : Type} [DecidableEq α] (l : List α) (a : α)
    (h : l.count a = 1) : l.filter (fun x => x = a) = [a] := by
  induction l with
  | nil => simp at h
  | cons x xs ih =>
    by_cases hx : x = a
    · subst hx
      rw [List.count_cons_self] at h
      have hz : xs.count x = 0 := by omega
      have hnot : x ∉ xs := by
        intro hmem
        have := List.count_pos_iff.mpr hmem
        omega
      have : xs.filter (fun y => y = x) = [] := by
        apply List.filter_eq_nil_iff.mpr
        intro y hy
        simp only [decide_eq_true_eq]
        intro he
        exact hnot (he ▸ hy)
      simp [this]
    · have hc : xs.count a = 1 := by
        rw [List.count_cons_of_ne (fun he => hx he.symm)] at h
        exact h
      simpa [hx] using ih hc

theorem blockDataFor_game (g : GameId) (tok : Option String) (b : Block) :
    (blockDataFor g tok b).game = g := rfl

theorem blockDataFor_block (g : GameId) (tok : Option String) (b : Block) :
    (blockDataFor g tok b).block = b.info := rfl

theorem concatMap_eq_nil {α β : Type} (f : α → List β) :
    ∀ l : List α, (∀ x ∈ l, f x = []) → concatMap f l = [] := by
  intro l
  induction l with
  | nil => intro _; rfl
  | cons x xs ih =>
    intro h
    simp [concatMap, h x (by simp), ih (fun y hy => h y (by simp [hy]))]

theorem concatMap_singleton {α β : Type} (f : α → β) (l : List α) :
    concatMap (fun x => [f x]) l = l.map f := by
  induction l <;> simp [concatMap, *]

theorem concatMap_single_of_filter {α β : Type} (f : α → List β) (q : α → Bool) :
    ∀ (l : List α) (b : α), l.filter q = [b] → (∀ x ∈ l, q x = false → f x = []) →
      concatMap f l = f b := by
  intro l
  induction l with
  | nil =>
    intro b hb _
    simp at hb
  | cons x xs ih =>
    intro b hb hnil
    by_cases hx : q x = true
    · rw [List.filter_cons, if_pos hx] at hb
      injection hb with h1 h2
      subst h1
      have hrest : concatMap f xs = [] := by
        apply concatMap_eq_nil
        intro y hy
        exact hnil y (List.mem_cons_of_mem _ hy) (eq_false_of_ne_true (List.filter_eq_nil_iff.mp h2 y hy))
      simp [concatMap, hrest]
    · have hxf : q x = false := by
        cases hq : q x with
        | true => exact absurd hq hx
        | false => rfl
      rw [List.filter_cons, if_neg (by simp [hxf])] at hb
      have := ih b hb (fun y hy => hnil y (List.mem_cons_of_mem _ hy))
      simp [concatMap, hnil x (List.mem_cons_self _ _) hxf, this]

theorem filterMap_attachData_detachPart (f : Block → List GameBlockData) (l : List Block) :
    (concatMap (fun b => (f b).map Msg.detach) l).filterMap attachData? = [] := by
  induction l with
  | nil => rfl
  | cons b rest ih =>
    simp only [concatMap, List.filterMap_append, filterMap_attachData_map_detach, ih]
    simp

theorem filterMap_attachData_attachPart (f : Block → List GameBlockData) (l : List Block) :
    (concatMap (fun b => (f b).map Msg.attach) l).filterMap attachData? = concatMap f l := by
  induction l with
  | nil => rfl
  | cons b rest ih =>
    simp only [concatMap, List.filterMap_append, filterMap_attachData_map_attach, ih]

theorem filterMap_attachData_pendPart (tr : List GameId) (l : List Tx) :
    (concatMap (pendingMsgs tr) l).filterMap attachData? = [] := by
  induction l with
  | nil => rfl
  | cons tx rest ih => simp [concatMap, filterMap_attachData_pendingMsgs, ih]

theorem filterMap_detachData_detachPart (f : Block → List GameBlockData) (l : List Block) :
    (concatMap (fun b => (f b).map Msg.detach) l).filterMap detachData? = concatMap f l := by
  induction l with
  | nil => rfl
  | cons b rest ih =>
    simp only [concatMap, List.filterMap_append, filterMap_detachData_map_detach, ih]

theorem filterMap_detachData_attachPart (f : Block → List GameBlockData) (l : List Block) :
    (concatMap (fun b => (f b).map Msg.attach) l).filterMap detachData? = [] := by
  induction l with
  | nil => rfl
  | cons b rest ih =>
    simp only [concatMap, List.filterMap_append, filterMap_detachData_map_attach, ih]
    simp

theorem filterMap_detachData_pendPart (tr : List GameId) (l : List Tx) :
    (concatMap (pendingMsgs tr) l).filterMap detachData? = [] := by
  induction l with
  | nil => rfl
  | cons tx rest ih => simp [concatMap, filterMap_detachData_pendingMsgs, ih]

theorem filterMap_attachData_step (st : NotifierState) (olds news : List Block) :
    ((stepEvent st (.update olds news)).2).filterMap attachData?
      = concatMap (attachBlock st.tracked) news := by
  simp only [stepEvent, List.filterMap_append, filterMap_attachData_detachPart,
             filterMap_attachData_attachPart, filterMap_attachData_pendPart,
             List.nil_append, List.append_nil]

theorem filterMap_detachData_step (st : NotifierState) (olds news : List Block) :
    ((stepEvent st (.update olds news)).2).filterMap detachData?
      = concatMap
          (fun b => (alookup b.info.hash st.attachCache).getD (attachBlock st.tracked b))
          olds := by
  simp only [stepEvent, List.filterMap_append, filterMap_detachData_detachPart,
             filterMap_detachData_attachPart, filterMap_detachData_pendPart,
             List.nil_append, List.append_nil]

theorem alookup_foldl_cache_nil (tr : List GameId) (news : List Block) :
    ∀ (c : List (String × List GameBlockData)) (h : String),
      news.filter (fun b => b.info.hash = h) = [] →
      alookup h (news.foldl (fun c b => (b.info.hash, attachBlock tr b) :: c) c)
        = alookup h c := by
  induction news with
  | nil =>
    intro c h _
    rfl
  | cons n rest ih =>
    intro c h hnil
    by_cases hn : n.info.hash = h
    · rw [List.filter_cons, if_pos (by simp [hn])] at hnil
      exact absurd hnil (List.cons_ne_nil _ _)
    · rw [List.filter_cons, if_neg (by simp [hn])] at hnil
      rw [List.foldl_cons, ih _ h hnil]
      simp [alookup, hn]

theorem alookup_foldl_cache_single (tr : List GameId) (news : List Block) :
    ∀ (c : List (String × List GameBlockData)) (h : String) (b : Block),
      news.filter (fun b' => b'.info.hash = h) = [b] →
      alookup h (news.foldl (fun c b => (b.info.hash, attachBlock tr b) :: c) c)
        = some (attachBlock tr b) := by
  induction news with
  | nil =>
    intro c h b hb
    simp at hb
  | cons n rest ih =>
    intro c h b hone
    by_cases hn : n.info.hash = h
    · rw [List.filter_cons, if_pos (by simp [hn])] at hone
      injection hone with h1 h2
      subst h1
      rw [List.foldl_cons, alookup_foldl_cache_nil tr rest _ h h2]
      simp [alookup, hn]
    · rw [List.filter_cons, if_neg (by simp [hn])] at hone
      rw [List.foldl_cons]
      exact ih _ h b hone

theorem alookup_foldl_cache_mem (tr : List GameId) (news : List Block) :
    ∀ (c : List (String × List GameBlockData)) (h : String) (ds : List GameBlockData),
      alookup h (news.foldl (fun c b => (b.info.hash, attachBlock tr b) :: c) c) = some ds →
      (∃ b, b ∈ news ∧ b.info.hash = h ∧ ds = attachBlock tr b) ∨ alookup h c = some ds := by
  induction news with
  | nil =>
    intro c h ds hl
    exact Or.inr hl
  | cons n rest ih =>
    intro c h ds hl
    rw [List.foldl_cons] at hl
    rcases ih _ h ds hl with h1 | h2
    · rcases h1 with ⟨b, hb, hh, hds⟩
      exact Or.inl ⟨b, List.mem_cons_of_mem _ hb, hh, hds⟩
    · by_cases hn : n.info.hash = h
      · simp only [alookup, if_pos hn, Option.some.injEq] at h2
        exact Or.inl ⟨n, List.mem_cons_self _ _, hn, h2.symm⟩
      · simp only [alookup, if_neg hn] at h2
        exact Or.inr h2

theorem cacheOK_step (st : NotifierState) (e : Event) (hok : CacheOK st) :
    CacheOK (stepEvent st e).1 := by
  cases e with
  | update olds news =>
    intro h ds hl d hd
    rcases alookup_foldl_cache_mem st.tracked news st.attachCache h ds hl with
      ⟨b, _, hh, hds⟩ | h2
    · subst hds
      rcases List.mem_map.mp hd with ⟨g', _, rfl⟩
      simpa [blockDataFor] using hh
    · exact hok h ds h2 d hd
  | accept tx => exact hok
  | track g => exact hok
  | untrack g => exact hok

theorem cacheOK_runEvents (evs : List Event) :
    ∀ st : NotifierState, CacheOK st → CacheOK (runEvents st evs).1 := by
  induction evs with
  | nil =>
    intro st h
    exact h
  | cons e rest ih =>
    intro st h
    exact ih _ (cacheOK_step st e h)

theorem alookup_cache_step (st : NotifierState) (e : Event) (h : String)
    (hno : connectsHash h e = false) :
    alookup h (stepEvent st e).1.attachCache = alookup h st.attachCache := by
  cases e with
  | update olds news =>
    have hnil : news.filter (fun b => b.info.hash = h) = [] := by
      simp only [connectsHash, List.any_eq_false] at hno
      apply List.filter_eq_nil_iff.mpr
      intro b hb
      simpa using hno b hb
    exact alookup_foldl_cache_nil st.tracked news st.attachCache h hnil
  | accept tx => rfl
  | track g => rfl
  | untrack g => rfl

theorem alookup_cache_runEvents (evs : List Event) (h : String) :
    ∀ st : NotifierState, (∀ e ∈ evs, connectsHash h e = false) →
      alookup h (runEvents st evs).1.attachCache = alookup h st.attachCache := by
  induction evs with
  | nil =>
    intro st _
    rfl
  | cons e rest ih =>
    intro st hno
    rw [show (runEvents st (e :: rest)).1 = (runEvents (stepEvent st e).1 rest).1 from rfl]
    rw [ih _ (fun e' he' => hno e' (List.mem_cons_of_mem _ he'))]
    exact alookup_cache_step st e h (hno e (List.mem_cons_self _ _))

theorem filter_attachBlock_ne (tr : List GameId) (b' : Block) (g : GameId) (h : String)
    (hne : b'.info.hash ≠ h) :
    (attachBlock tr b').filter (fun d => d.game = g ∧ d.block.hash = h) = [] := by
  apply List.filter_eq_nil_iff.mpr
  intro d hd
  rcases List.mem_map.mp hd with ⟨g', _, rfl⟩
  simp [blockDataFor, hne]

theorem filter_cached_ne (st : NotifierState) (hok : CacheOK st) (b' : Block) (g : GameId)
    (h : String) (hne : b'.info.hash ≠ h) :
    ((alookup b'.info.hash st.attachCache).getD (attachBlock st.tracked b')).filter
        (fun d => d.game = g ∧ d.block.hash = h) = [] := by
  cases hl : alookup b'.info.hash st.attachCache with
  | none => simpa using filter_attachBlock_ne st.tracked b' g h hne
  | some ds =>
    simp only [Option.getD_some]
    apply List.filter_eq_nil_iff.mpr
    intro d hd
    have hdh := hok _ _ hl d hd
    simp [hdh, hne]

theorem filter_attachBlock_game (tr : List GameId) (b : Block) (g : GameId)
    (hcnt : tr.count g = 1) :
    (attachBlock tr b).filter (fun d => d.game = g) = [blockDataFor g none b] := by
  unfold attachBlock
  rw [List.filter_map]
  have hc : (fun d : GameBlockData => decide (d.game = g)) ∘ (fun g' => blockDataFor g' none b)
      = fun g' => decide (g' = g) := by
    funext g'
    rfl
  rw [hc, filter_eq_single_of_count_one tr g hcnt]
  rfl

/-- C1: for every block that is connected and later disconnected without
being reconnected in between, and every tracked game, the detach
payloads published at the disconnect are identical field-for-field
(block data, ordered moves, ordered admin list and reqtoken alike) to
the attach payloads published at the connect; live-path messages carry
no reqtoken, so the claim's reqtoken exception for catch-up calls is
not exercised here. -/
theorem c1_detach_mirrors_attach
    (st1 st2 st3 st4 : NotifierState) (ms1 msMid ms2 : List Msg)
    (mid : List Event) (olds1 news1 olds2 news2 : List Block) (b b2 : Block) (g : GameId)
    (hok : CacheOK st1)
    (hconn : news1.filter (fun b' => b'.info.hash = b.info.hash) = [b])
    (h2 : stepEvent st1 (.update olds1 news1) = (st2, ms1))
    (hmid : ∀ e ∈ mid, connectsHash b.info.hash e = false)
    (h3 : runEvents st2 mid = (st3, msMid))
    (hdis : olds2.filter (fun b' => b'.info.hash = b.info.hash) = [b2])
    (h4 : stepEvent st3 (.update olds2 news2) = (st4, ms2)) :
    blockMsgsFor detachData? g b.info.hash ms2
      = blockMsgsFor attachData? g b.info.hash ms1 := by
  have h2' : (stepEvent st1 (.update olds1 news1)).1 = st2 := by rw [h2]
  have h3' : (runEvents st2 mid).1 = st3 := by rw [h3]
  have hrhs : blockMsgsFor attachData? g b.info.hash ms1
      = (attachBlock st1.tracked b).filter
          (fun d => d.game = g ∧ d.block.hash = b.info.hash) := by
    have hms1 : ms1 = (stepEvent st1 (.update olds1 news1)).2 := by rw [h2]
    rw [hms1]
    unfold blockMsgsFor
    rw [filterMap_attachData_step, filter_concatMap]
    exact concatMap_single_of_filter _ _ news1 b hconn
      (fun x _ hqx => filter_attachBlock_ne st1.tracked x g b.info.hash (by simpa using hqx))
  have hcache2 : alookup b.info.hash st2.attachCache = some (attachBlock st1.tracked b) := by
    rw [← h2']
    exact alookup_foldl_cache_single st1.tracked news1 st1.attachCache b.info.hash b hconn
  have hcache3 : alookup b.info.hash st3.attachCache = some (attachBlock st1.tracked b) := by
    have hpres := alookup_cache_runEvents mid b.info.hash st2 hmid
    rw [h3'] at hpres
    rw [hpres]
    exact hcache2
  have hok3 : CacheOK st3 := by
    have hok2 : CacheOK st2 := by
      rw [← h2']
      exact cacheOK_step st1 _ hok
    rw [← h3']
    exact cacheOK_runEvents mid st2 hok2
  have hb2 : b2.info.hash = b.info.hash := by
    have hmem : b2 ∈ olds2.filter (fun b' => b'.info.hash = b.info.hash) := by
      rw [hdis]
      exact List.mem_singleton.mpr rfl
    simpa using List.of_mem_filter hmem
  have hlhs : blockMsgsFor detachData? g b.info.hash ms2
      = ((alookup b2.info.hash st3.attachCache).getD (attachBlock st3.tracked b2)).filter
          (fun d => d.game = g ∧ d.block.hash = b.info.hash) := by
    have hms2 : ms2 = (stepEvent st3 (.update olds2 news2)).2 := by rw [h4]
    rw [hms2]
    unfold blockMsgsFor
    rw [filterMap_detachData_step, filter_concatMap]
    exact concatMap_single_of_filter _ _ olds2 b2 hdis
      (fun x _ hqx => filter_cached_ne st3 hok3 x g b.info.hash (by simpa using hqx))
  rw [hlhs, hrhs, hb2, hcache3]
  simp only [Option.getD_some]

/-- Witness for C1: a concrete run in which block `blkB1` is connected,
a mempool acceptance happens in between, and the block is then
disconnected; the detach payloads equal the attach payloads. -/
theorem c1_detach_mirrors_attach_witness :
    blockMsgsFor detachData? "a" blkB1.info.hash
        (stepEvent (runEvents (stepEvent stW (.update [] [blkB1])).1 [.accept txA]).1
          (.update [blkB1] [])).2
      = blockMsgsFor attachData? "a" blkB1.info.hash
          (stepEvent stW (.update [] [blkB1])).2 :=
  c1_detach_mirrors_attach stW _ _ _ _ _ _ [.accept txA] [] [blkB1] [blkB1] [] blkB1 blkB1 "a"
    (fun _ _ hl => by simp [alookup, stW] at hl)
    (by rfl) rfl
    (fun e he => by rw [List.mem_singleton.mp he]; rfl)
    rfl (by rfl) rfl

/-- C2: a reorg event that disconnects D blocks (delivered most recently
connected first) and connects E blocks publishes, for every tracked
game, exactly the D detach payloads first (in reverse chronological
order), then the E attach payloads in chronological order with each
attached block's parent equal to the previous attach's hash, and every
pending-move message of the event strictly after all attach messages,
so none appears between the last detach and the first attach. -/
theorem c2_reorg_stream (st : NotifierState) (olds news : List Block) (g : GameId)
    (hcnt : st.tracked.count g = 1)
    (hcache : ∀ b ∈ olds, ∃ tr, alookup b.info.hash st.attachCache = some (attachBlock tr b)
        ∧ tr.count g = 1)
    (holds : List.Chain' (fun a b : Block => a.info.parent = b.info.hash) olds)
    (hnews : List.Chain' (fun a b : Block => b.info.parent = a.info.hash) news) :
    ∃ dM aM pM,
      (stepEvent st (.update olds news)).2 = dM ++ aM ++ pM
      ∧ (∀ m ∈ dM, m.isDetach = true)
      ∧ (∀ m ∈ aM, m.isAttach = true)
      ∧ (∀ m ∈ pM, m.isPending = true)
      ∧ (dM.filterMap detachData?).filter (fun d => d.game = g)
          = olds.map (fun b => blockDataFor g none b)
      ∧ (aM.filterMap attachData?).filter (fun d => d.game = g)
          = news.map (fun b => blockDataFor g none b)
      ∧ List.Chain' (fun d d' : GameBlockData => d.block.parent = d'.block.hash)
          (olds.map (fun b => blockDataFor g none b))
      ∧ List.Chain' (fun d d' : GameBlockData => d'.block.parent = d.block.hash)
          (news.map (fun b => blockDataFor g none b)) := by
  have hstep : (stepEvent st (.update olds news)).2
      = concatMap (fun b =>
          ((alookup b.info.hash st.attachCache).getD (attachBlock st.tracked b)).map Msg.detach)
          olds
        ++ concatMap (fun b => (attachBlock st.tracked b).map Msg.attach) news
        ++ concatMap (pendingMsgs st.tracked)
            ((concatMap (fun b => b.txs) olds).filter
              (fun tx => ¬ (tx.txid ∈ concatMap (fun b => b.txs.map (fun tx => tx.txid)) news))) :=
    rfl
  refine ⟨_, _, _, hstep, ?_, ?_, ?_, ?_, ?_, ?_, ?_⟩
  · intro m hm
    rcases mem_concatMap.mp hm with ⟨b, _, hmb⟩
    rcases List.mem_map.mp hmb with ⟨d, _, rfl⟩
    rfl
  · intro m hm
    rcases mem_concatMap.mp hm with ⟨b, _, hmb⟩
    rcases List.mem_map.mp hmb with ⟨d, _, rfl⟩
    rfl
  · intro m hm
    rcases mem_concatMap.mp hm with ⟨tx, _, hmt⟩
    rcases List.mem_filterMap.mp hmt with ⟨g', _, hg'⟩
    cases hmv : moveForGame g' tx with
    | none =>
      rw [hmv] at hg'
      simp at hg'
    | some mv =>
      rw [hmv] at hg'
      simp only [Option.map_some'] at hg'
      rw [← Option.some.inj hg']
      rfl
  · rw [filterMap_detachData_detachPart, filter_concatMap]
    have hpoint : ∀ b ∈ olds,
        ((alookup b.info.hash st.attachCache).getD (attachBlock st.tracked b)).filter
            (fun d => d.game = g)
          = [blockDataFor g none b] := by
      intro b hb
      rcases hcache b hb with ⟨tr, hlk, htr⟩
      rw [hlk, Option.getD_some, filter_attachBlock_game tr b g htr]
    rw [concatMap_congr hpoint, concatMap_singleton]
  · rw [filterMap_attachData_attachPart, filter_concatMap]
    have hpoint : ∀ b ∈ news,
        (attachBlock st.tracked b).filter (fun d => d.game = g)
          = [blockDataFor g none b] := by
      intro b _
      exact filter_attachBlock_game st.tracked b g hcnt
    rw [concatMap_congr hpoint, concatMap_singleton]
  · rw [List.chain'_map]
    exact holds
  · rw [List.chain'_map]
    exact hnews

/-- Witness for C2: a concrete reorg disconnecting `oldBlk` and
connecting the two-block branch `newBlk1`, `newBlk2` from state `stC2`. -/
theorem c2_reorg_stream_witness :
    ∃ dM aM pM,
      (stepEvent stC2 (.update [oldBlk] [newBlk1, newBlk2])).2 = dM ++ aM ++ pM
      ∧ (∀ m ∈ dM, m.isDetach = true)
      ∧ (∀ m ∈ aM, m.isAttach = true)
      ∧ (∀ m ∈ pM, m.isPending = true)
      ∧ (dM.filterMap detachData?).filter (fun d => d.game = "a")
          = [oldBlk].map (fun b => blockDataFor "a" none b)
      ∧ (aM.filterMap attachData?).filter (fun d => d.game = "a")
          = [newBlk1, newBlk2].map (fun b => blockDataFor "a" none b)
      ∧ List.Chain' (fun d d' : GameBlockData => d.block.parent = d'.block.hash)
          ([oldBlk].map (fun b => blockDataFor "a" none b))
      ∧ List.Chain' (fun d d' : GameBlockData => d'.block.parent = d.block.hash)
          ([newBlk1, newBlk2].map (fun b => blockDataFor "a" none b)) :=
  c2_reorg_stream stC2 [oldBlk] [newBlk1, newBlk2] "a" (by decide)
    (fun b hb => by
      rw [List.mem_singleton.mp hb]
      exact ⟨["a"], rfl, by decide⟩)
    (by simp)
    (by simp [List.chain'_cons, List.chain'_singleton, newBlk1, newBlk2])

theorem filter_filterMap_msgGame (tr : List GameId) (f : GameId → Option Msg)
    (hf : ∀ g' m, f g' = some m → msgGame m = g') (g : GameId) :
    (tr.filterMap f).filter (fun m => msgGame m = g)
      = (tr.filter (fun g' => g' = g)).filterMap f := by
  induction tr with
  | nil => rfl
  | cons x xs ih =>
    by_cases hxg : x = g
    · subst hxg
      cases hx : f x with
      | none => simp [List.filterMap_cons, hx, List.filter_cons, ih]
      | some m => simp [List.filterMap_cons, hx, List.filter_cons, hf x m hx, ih]
    · cases hx : f x with
      | none => simp [List.filterMap_cons, hx, List.filter_cons, hxg, ih]
      | some m => simp [List.filterMap_cons, hx, List.filter_cons, hxg, hf x m hx, ih]

theorem filter_map_msgGame (tr : List GameId) (mk : GameId → Msg)
    (hmk : ∀ g', msgGame (mk g') = g') (g : GameId) :
    (tr.map mk).filter (fun m => msgGame m = g) = (tr.filter (fun g' => g' = g)).map mk := by
  induction tr with
  | nil => rfl
  | cons x xs ih =>
    by_cases hxg : x = g
    · simp [List.filter_cons, hxg, hmk, ih]
    · simp [List.filter_cons, hxg, hmk, ih]

theorem filter_pendingMsgs_game (tr : List GameId) (tx : Tx) (g : GameId) (mv : Move)
    (hcnt : tr.count g = 1) (hmv : moveForGame g tx = some mv) :
    (pendingMsgs tr tx).filter (fun m => msgGame m = g) = [Msg.pending g mv] := by
  have hf : ∀ g' m, ((moveForGame g' tx).map (fun mv => Msg.pending g' mv)) = some m →
      msgGame m = g' := by
    intro g' m hm
    cases hmv' : moveForGame g' tx with
    | none =>
      rw [hmv'] at hm
      simp at hm
    | some mv' =>
      rw [hmv'] at hm
      simp only [Option.map_some'] at hm
      rw [← Option.some.inj hm]
      rfl
  unfold pendingMsgs
  rw [filter_filterMap_msgGame tr _ hf g, filter_eq_single_of_count_one tr g hcnt]
  simp [List.filterMap_cons, hmv]

theorem filter_attachMsgs_game (tr : List GameId) (b : Block) (g : GameId)
    (hcnt : tr.count g = 1) :
    ((attachBlock tr b).map Msg.attach).filter (fun m => msgGame m = g)
      = [Msg.attach (blockDataFor g none b)] := by
  unfold attachBlock
  rw [List.map_map]
  rw [filter_map_msgGame tr (Msg.attach ∘ fun g' => blockDataFor g' none b) (fun g' => rfl) g,
      filter_eq_single_of_count_one tr g hcnt]
  rfl

theorem filter_detachMsgs_game (tr : List GameId) (b : Block) (g : GameId)
    (hcnt : tr.count g = 1) :
    ((attachBlock tr b).map Msg.detach).filter (fun m => msgGame m = g)
      = [Msg.detach (blockDataFor g none b)] := by
  unfold attachBlock
  rw [List.map_map]
  rw [filter_map_msgGame tr (Msg.detach ∘ fun g' => blockDataFor g' none b) (fun g' => rfl) g,
      filter_eq_single_of_count_one tr g hcnt]
  rfl

/-- C5: a transaction accepted to the mempool, confirmed in a block and
returned to the mempool by a one-block disconnect produces, for each
relevant tracked game, exactly one pending-move message, one attach
containing the transaction's move, one detach containing the identical
move, and one pending-move message again, in that order; in particular
the re-announcement is never published before the detach. -/
theorem c5_pending_lifecycle (st : NotifierState) (tx : Tx) (blk : Block) (g : GameId)
    (mv : Move)
    (hcnt : st.tracked.count g = 1)
    (hmv : moveForGame g tx = some mv)
    (htxs : blk.txs = [tx]) :
    ((runEvents st [.accept tx, .update [] [blk], .update [blk] []]).2).filter
        (fun m => msgGame m = g)
      = [Msg.pending g mv, Msg.attach (blockDataFor g none blk),
         Msg.detach (blockDataFor g none blk), Msg.pending g mv]
      ∧ (blockDataFor g none blk).moves = [mv] := by
  constructor
  · have hdecomp : (runEvents st [.accept tx, .update [] [blk], .update [blk] []]).2
        = (stepEvent st (.accept tx)).2
          ++ ((stepEvent st (.update [] [blk])).2
          ++ ((stepEvent (stepEvent st (.update [] [blk])).1 (.update [blk] [])).2 ++ [])) :=
      rfl
    have e2msgs : (stepEvent st (.update [] [blk])).2
        = (attachBlock st.tracked blk).map Msg.attach := by
      simp [stepEvent, concatMap]
    have e3msgs : (stepEvent (stepEvent st (.update [] [blk])).1 (.update [blk] [])).2
        = (attachBlock st.tracked blk).map Msg.detach ++ pendingMsgs st.tracked tx := by
      simp [stepEvent, concatMap, alookup, htxs]
    have e1msgs : (stepEvent st (.accept tx)).2 = pendingMsgs st.tracked tx := rfl
    rw [hdecomp, e1msgs, e2msgs, e3msgs]
    rw [List.append_nil]
    rw [List.filter_append, List.filter_append, List.filter_append]
    rw [filter_pendingMsgs_game st.tracked tx g mv hcnt hmv,
        filter_attachMsgs_game st.tracked blk g hcnt,
        filter_detachMsgs_game st.tracked blk g hcnt]
    rfl
  · simp [blockDataFor, htxs, List.filterMap_cons, hmv]

/-- Witness for C5: the concrete transaction `txA` for game "a" run
through accept, connect of `blkB1` and disconnect of `blkB1` from state
`stW`. -/
theorem c5_pending_lifecycle_witness :
    ((runEvents stW [.accept txA, .update [] [blkB1], .update [blkB1] []]).2).filter
        (fun m => msgGame m = "a")
      = [Msg.pending "a" mvA, Msg.attach (blockDataFor "a" none blkB1),
         Msg.detach (blockDataFor "a" none blkB1), Msg.pending "a" mvA]
      ∧ (blockDataFor "a" none blkB1).moves = [mvA] :=
  c5_pending_lifecycle stW txA blkB1 "a" mvA (by decide) rfl rfl

theorem attachBlock_game_mem (tr : List GameId) (b : Block) (d : GameBlockData)
    (hd : d ∈ attachBlock tr b) : d.game ∈ tr := by
  rcases List.mem_map.mp hd with ⟨g', hg', rfl⟩
  exact hg'

theorem pendingMsgs_game_mem (tr : List GameId) (tx : Tx) (m : Msg)
    (hm : m ∈ pendingMsgs tr tx) : msgGame m ∈ tr := by
  rcases List.mem_filterMap.mp hm with ⟨g', hg', hsome⟩
  cases hmv : moveForGame g' tx with
  | none =>
    rw [hmv] at hsome
    simp at hsome
  | some mv =>
    rw [hmv] at hsome
    simp only [Option.map_some'] at hsome
    rw [← Option.some.inj hsome]
    exact hg'

theorem avoidsGame_step (g : GameId) (st : NotifierState) (e : Event)
    (hav : avoidsGame g st) (hne : isTrackOf g e = false) :
    avoidsGame g (stepEvent st e).1 ∧ ∀ m ∈ (stepEvent st e).2, msgGame m ≠ g := by
  rcases hav with ⟨hgt, hcg⟩
  cases e with
  | update olds news =>
    constructor
    · constructor
      · exact hgt
      · intro h ds hl d hd
        rcases alookup_foldl_cache_mem st.tracked news st.attachCache h ds hl with
          ⟨b, _, _, hds⟩ | h2
        · subst hds
          intro he
          exact hgt (he ▸ attachBlock_game_mem st.tracked b d hd)
        · exact hcg h ds h2 d hd
    · intro m hm
      rcases List.mem_append.mp hm with hda | hp
      · rcases List.mem_append.mp hda with hd | ha
        · rcases mem_concatMap.mp hd with ⟨b, hb, hmb⟩
          rcases List.mem_map.mp hmb with ⟨d, hdmem, rfl⟩
          show d.game ≠ g
          cases hl : alookup b.info.hash st.attachCache with
          | none =>
            rw [hl] at hdmem
            simp only [Option.getD_none] at hdmem
            intro he
            exact hgt (he ▸ attachBlock_game_mem st.tracked b d hdmem)
          | some ds =>
            rw [hl] at hdmem
            simp only [Option.getD_some] at hdmem
            exact hcg _ _ hl d hdmem
        · rcases mem_concatMap.mp ha with ⟨b, hb, hmb⟩
          rcases List.mem_map.mp hmb with ⟨d, hdmem, rfl⟩
          show d.game ≠ g
          intro he
          exact hgt (he ▸ attachBlock_game_mem st.tracked b d hdmem)
      · rcases mem_concatMap.mp hp with ⟨tx, htx, hmt⟩
        intro he
        exact hgt (he ▸ pendingMsgs_game_mem st.tracked tx m hmt)
  | accept tx =>
    refine ⟨⟨hgt, hcg⟩, ?_⟩
    intro m hm he
    exact hgt (he ▸ pendingMsgs_game_mem st.tracked tx m hm)
  | track g' =>
    have hg'g : g' ≠ g := by simpa [isTrackOf] using hne
    constructor
    · constructor
      · show g ∉ (if g' ∈ st.tracked then st.tracked else st.tracked ++ [g'])
        by_cases hmem : g' ∈ st.tracked
        · rw [if_pos hmem]
          exact hgt
        · rw [if_neg hmem]
          intro hc
          rcases List.mem_append.mp hc with h1 | h2
          · exact hgt h1
          · exact hg'g (List.mem_singleton.mp h2).symm
      · exact hcg
    · intro m hm
      simp [stepEvent] at hm
  | untrack g' =>
    constructor
    · refine ⟨?_, hcg⟩
      intro hc
      exact hgt (List.mem_of_mem_filter hc)
    · intro m hm
      simp [stepEvent] at hm

theorem avoidsGame_runEvents (g : GameId) (evs : List Event) :
    ∀ st : NotifierState, avoidsGame g st → (∀ e ∈ evs, isTrackOf g e = false) →
      ∀ m ∈ (runEvents st evs).2, msgGame m ≠ g := by
  induction evs with
  | nil =>
    intro st _ _ m hm
    simp [runEvents] at hm
  | cons e rest ih =>
    intro st hav hno m hm
    have hdecomp : (runEvents st (e :: rest)).2
        = (stepEvent st e).2 ++ (runEvents (stepEvent st e).1 rest).2 := rfl
    rw [hdecomp] at hm
    rcases List.mem_append.mp hm with h1 | h2
    · exact (avoidsGame_step g st e hav (hno e (List.mem_cons_self _ _))).2 m h1
    · exact ih (stepEvent st e).1
        (avoidsGame_step g st e hav (hno e (List.mem_cons_self _ _))).1
        (fun e' he' => hno e' (List.mem_cons_of_mem _ he')) m h2

/-- C6: a game never added to the tracked set receives no organic
attach, detach or pending message over any sequence of chain and
mempool events, yet a game_sendupdates call for that same game succeeds
and produces the correct detach and attach messages along the computed
paths (catch-up does not consult the registry). -/
theorem c6_untracked_queryable (st0 : NotifierState) (evs : List Event) (g : GameId)
    (hg : g ∉ st0.tracked) (hc0 : st0.attachCache = [])
    (hev : ∀ e ∈ evs, isTrackOf g e = false)
    (idx : ChainIndex) (m : Nat) (tok fromH toH : String) (fromB toB anc : Block)
    (dp ap : List Block)
    (hf : findBlock idx fromH = some fromB) (ht : findBlock idx toH = some toB)
    (hp : catchupPaths idx fromB toB = some (anc, dp, ap)) :
    (∀ msg ∈ (runEvents st0 evs).2, msgGame msg ≠ g)
    ∧ ∃ out, gameSendupdates m idx g tok fromH toH = .ok out
        ∧ out.msgs = dp.map (fun b => Msg.detach (blockDataFor g (some tok) b))
            ++ (ap.take m).map (fun b => Msg.attach (blockDataFor g (some tok) b))
        ∧ out.res.steps.detach = dp.length
        ∧ out.res.steps.attach = (ap.take m).length
        ∧ ∀ msg ∈ out.msgs, msgGame msg = g := by
  constructor
  · apply avoidsGame_runEvents g evs st0 ?_ hev
    refine ⟨hg, ?_⟩
    intro h ds hl
    rw [hc0] at hl
    simp [alookup] at hl
  · have hout : gameSendupdates m idx g tok fromH toH = Except.ok
        { res :=
            { toblock := (((ap.take m).getLast?).map (fun b => b.info.hash)).getD anc.info.hash,
              ancestor := anc.info.hash,
              reqtoken := tok,
              steps := { attach := (ap.take m).length, detach := dp.length } },
          msgs := (dp.map (fun b => Msg.detach (blockDataFor g (some tok) b)))
            ++ ((ap.take m).map (fun b => Msg.attach (blockDataFor g (some tok) b))) } := by
      simp only [gameSendupdates, hf, ht, hp]
      cases hlast : (ap.take m).getLast? with
      | none => simp [hlast]
      | some b => simp [hlast]
    refine ⟨_, hout, rfl, rfl, rfl, ?_⟩
    intro msg hmsg
    rcases List.mem_append.mp hmsg with h1 | h1
    · rcases List.mem_map.mp h1 with ⟨b, _, rfl⟩
      rfl
    · rcases List.mem_map.mp h1 with ⟨b, _, rfl⟩
      rfl

/-- Witness for C6: the untracked game "z" over a concrete event run
from `stW`, and a concrete game_sendupdates call for "z" from block c0
to block c2 of the fixture chain. -/
theorem c6_untracked_queryable_witness :
    (∀ msg ∈ (runEvents stW [.update [] [blkB1], .accept txA, .track "b"]).2,
        msgGame msg ≠ "z")
    ∧ ∃ out, gameSendupdates 10 idxFix "z" "tk" "c0" "c2" = .ok out
        ∧ out.msgs = ([] : List Block).map (fun b => Msg.detach (blockDataFor "z" (some "tk") b))
            ++ ([cblk1, cblk2].take 10).map (fun b => Msg.attach (blockDataFor "z" (some "tk") b))
        ∧ out.res.steps.detach = ([] : List Block).length
        ∧ out.res.steps.attach = ([cblk1, cblk2].take 10).length
        ∧ ∀ msg ∈ out.msgs, msgGame msg = "z" :=
  c6_untracked_queryable stW [.update [] [blkB1], .accept txA, .track "b"] "z"
    (by decide) rfl
    (by
      intro e he
      rcases List.mem_cons.mp he with rfl | he
      · rfl
      rcases List.mem_cons.mp he with rfl | he
      · rfl
      rcases List.mem_cons.mp he with rfl | he
      · rfl
      · simp at he)
    idxFix 10 "tk" "c0" "c2" cblk0 cblk2 cblk0 [] [cblk1, cblk2] rfl rfl rfl

/-- C3: when the attach path from the common ancestor toward the
requested toblock is longer than the configured cap, a game_sendupdates
call sends exactly cap attach messages in chain order moving away from
the ancestor, reports steps.attach equal to the cap and a toblock equal
to the cap-th block along the path (the last block actually attached),
while the detach step count always equals the full detach path length
and is never capped. -/
theorem c3_attach_cap (maxAtt : Nat) (idx : ChainIndex) (g : GameId) (tok fromH toH : String)
    (fromB toB anc : Block) (dp ap : List Block)
    (hf : findBlock idx fromH = some fromB) (ht : findBlock idx toH = some toB)
    (hp : catchupPaths idx fromB toB = some (anc, dp, ap))
    (hcap : 0 < maxAtt) (hlong : maxAtt < ap.length) :
    ∃ out, gameSendupdates maxAtt idx g tok fromH toH = .ok out
      ∧ out.res.steps.attach = maxAtt
      ∧ out.res.steps.detach = dp.length
      ∧ out.msgs.filterMap attachData?
          = (ap.take maxAtt).map (fun b => blockDataFor g (some tok) b)
      ∧ out.res.toblock = (ap.get ⟨maxAtt - 1, by omega⟩).info.hash := by
  have hout : gameSendupdates maxAtt idx g tok fromH toH = Except.ok
      { res :=
          { toblock :=
              (((ap.take maxAtt).getLast?).map (fun b => b.info.hash)).getD anc.info.hash,
            ancestor := anc.info.hash,
            reqtoken := tok,
            steps := { attach := (ap.take maxAtt).length, detach := dp.length } },
        msgs := (dp.map (fun b => Msg.detach (blockDataFor g (some tok) b)))
          ++ ((ap.take maxAtt).map (fun b => Msg.attach (blockDataFor g (some tok) b))) } := by
    simp only [gameSendupdates, hf, ht, hp]
    cases hlast : (ap.take maxAtt).getLast? with
    | none => simp [hlast]
    | some b => simp [hlast]
  have hlen : (ap.take maxAtt).length = maxAtt := by
    rw [List.length_take]
    omega
  have hlast : (ap.take maxAtt).getLast? = some (ap.get ⟨maxAtt - 1, by omega⟩) := by
    rw [List.getLast?_eq_getElem?]
    simp only [hlen]
    rw [List.getElem?_take, if_pos (by omega : maxAtt - 1 < maxAtt)]
    rw [List.getElem?_eq_getElem (by omega)]
    rfl
  refine ⟨_, hout, hlen, rfl, ?_, ?_⟩
  · show ((dp.map (fun b => Msg.detach (blockDataFor g (some tok) b)))
        ++ ((ap.take maxAtt).map (fun b => Msg.attach (blockDataFor g (some tok) b)))).filterMap
          attachData?
      = (ap.take maxAtt).map (fun b => blockDataFor g (some tok) b)
    rw [List.filterMap_append]
    rw [show dp.map (fun b => Msg.detach (blockDataFor g (some tok) b))
        = (dp.map (fun b => blockDataFor g (some tok) b)).map Msg.detach by
      rw [List.map_map]
      rfl]
    rw [show (ap.take maxAtt).map (fun b => Msg.attach (blockDataFor g (some tok) b))
        = ((ap.take maxAtt).map (fun b => blockDataFor g (some tok) b)).map Msg.attach by
      rw [List.map_map]
      rfl]
    rw [filterMap_attachData_map_detach, filterMap_attachData_map_attach]
    rfl
  · show (((ap.take maxAtt).getLast?).map (fun b => b.info.hash)).getD anc.info.hash
      = (ap.get ⟨maxAtt - 1, by omega⟩).info.hash
    rw [hlast]
    rfl

/-- Witness for C3: on the fixture chain, a catch-up call from c0
toward c4 with cap 2 attaches exactly c1 and c2 and reports toblock c2. -/
theorem c3_attach_cap_witness :
    ∃ out, gameSendupdates 2 idxFix "a" "tk" "c0" "c4" = .ok out
      ∧ out.res.steps.attach = 2
      ∧ out.res.steps.detach = ([] : List Block).length
      ∧ out.msgs.filterMap attachData?
          = ([cblk1, cblk2, cblk3, cblk4].take 2).map (fun b => blockDataFor "a" (some "tk") b)
      ∧ out.res.toblock
          = ([cblk1, cblk2, cblk3, cblk4].get ⟨2 - 1, by decide⟩).info.hash :=
  c3_attach_cap 2 idxFix "a" "tk" "c0" "c4" cblk0 cblk4 cblk0 [] [cblk1, cblk2, cblk3, cblk4]
    rfl rfl rfl (by decide) (by decide)

theorem publishSeq_filter (ps : List (String × GameId)) :
    ∀ (ctrs : List ((String × GameId) × Nat)) (p : String × GameId),
      ((publishSeq ps ctrs).filterMap
          (fun w => if w.topic = p.1 ∧ w.game = p.2 then some w.seq else none))
        = List.range' ((alookup p ctrs).getD 0) (ps.count p) := by
  induction ps with
  | nil =>
    intro ctrs p
    simp [publishSeq]
  | cons q ps ih =>
    intro ctrs p
    by_cases hqp : q = p
    · subst hqp
      have hup : (alookup q (updAssoc q (((alookup q ctrs).getD 0) + 1) ctrs)).getD 0
          = ((alookup q ctrs).getD 0) + 1 := by
        rw [alookup_updAssoc_self]
        rfl
      simp only [publishSeq]
      rw [List.filterMap_cons]
      simp only [show (if (q.1 = q.1 ∧ q.2 = q.2)
          then some ((alookup q ctrs).getD 0) else none)
          = some ((alookup q ctrs).getD 0) from if_pos ⟨rfl, rfl⟩]
      rw [ih (updAssoc q (((alookup q ctrs).getD 0) + 1) ctrs) q, hup]
      rw [List.count_cons_self, List.range'_succ]
      simp
    · have hne : ¬ (q.1 = p.1 ∧ q.2 = p.2) := by
        intro hc
        exact hqp (Prod.ext hc.1 hc.2)
      simp only [publishSeq]
      rw [List.filterMap_cons]
      simp only [show (if (q.1 = p.1 ∧ q.2 = p.2)
          then some ((alookup q ctrs).getD 0) else none) = none from if_neg hne]
      rw [ih (updAssoc q (((alookup q ctrs).getD 0) + 1) ctrs) p]
      rw [alookup_updAssoc_ne _ _ (fun he => hqp he.symm)]
      rw [List.count_cons_of_ne (fun he => hqp he.symm)]

/-- C4: sequence numbers carried by successively published messages on a
given (topic, gameId) pair form exactly the series 0, 1, 2, ... within
one process run: the first carries 0, each next one is one greater, with
no gaps; the counter of each pair depends only on the publications on
that same pair, so counters of different pairs are independent. -/
theorem c4_sequence_numbers (ps : List (String × GameId)) (t : String) (g : GameId) :
    (runPublisher ps).filterMap
        (fun w => if w.topic = t ∧ w.game = g then some w.seq else none)
      = List.range (ps.count (t, g)) := by
  have main := publishSeq_filter ps [] (t, g)
  simpa [runPublisher, List.range_eq_range'] using main

/-- C7 (amended): in the game_sendupdates RPC the second positional
argument is fromblock and the third is toblock, the toblock defaulting
to the current chain tip when omitted; a call game_sendupdates(g, X, Y)
computes the update path from fromBlock = X to toBlock = Y, and an
unknown second argument fails with the fromblock-not-found error. -/
theorem c7_arg_order (m : Nat) (idx : ChainIndex) (tip : String) (g : GameId)
    (tok : String) (x y : String) :
    gameSendupdatesRPC m idx tip g tok (some x) (some y) = gameSendupdates m idx g tok x y
    ∧ gameSendupdatesRPC m idx tip g tok (some x) none = gameSendupdates m idx g tok x tip
    ∧ (findBlock idx x = none →
        gameSendupdatesRPC m idx tip g tok (some x) (some y) = .error .fromNotFound) := by
  refine ⟨rfl, rfl, ?_⟩
  intro hx
  simp [gameSendupdatesRPC, gameSendupdates, hx]

/-- Witness for C7 (amended): an unknown second positional argument
fails with the fromblock-not-found error on the fixture chain. -/
theorem c7_arg_order_witness :
    gameSendupdatesRPC 10 idxFix "c4" "a" "tk" (some "zz") (some "c1")
      = .error .fromNotFound :=
  (c7_arg_order 10 idxFix "c4" "a" "tk" "zz" "c1").2.2 rfl

/-- Counterexample for C7 as stated: on the fixture chain with tip c4, a
call with second argument c0 and third argument c2 walks from fromBlock
c0 to toBlock c2 (two attach steps, zero detach steps) — not, as the
claim predicts with toBlock = c0 and fromBlock = c2, zero attach and
two detach steps; moreover an unknown second argument fails with the
fromblock-not-found error, not the toblock one. -/
theorem c7_counterexample :
    (∃ out, gameSendupdatesRPC 10 idxFix "c4" "a" "tk" (some "c0") (some "c2") = .ok out
      ∧ out.res.steps.attach = 2 ∧ out.res.steps.detach = 0
      ∧ ¬ (out.res.steps.attach = 0 ∧ out.res.steps.detach = 2))
    ∧ gameSendupdatesRPC 10 idxFix "c4" "a" "tk" (some "zz") none
        = .error .fromNotFound := by
  constructor
  · exact ⟨_, rfl, rfl, rfl, by decide⟩
  · rfl

theorem lookupLast_none_of_not_any (o : List (String × Json)) (g : String)
    (h : o.any (fun kv => kv.1 = g) = false) : lookupLast o g = none := by
  unfold lookupLast
  have hnil : o.filter (fun kv => kv.1 = g) = [] := by
    apply List.filter_eq_nil_iff.mpr
    intro kv hkv
    simp only [List.any_eq_false] at h
    simpa using h kv hkv
  rw [hnil]
  rfl

theorem lookupLast_isSome_of_any (o : List (String × Json)) (g : String)
    (h : o.any (fun kv => kv.1 = g) = true) : ∃ v, lookupLast o g = some v := by
  rcases List.any_eq_true.mp h with ⟨kv, hmem, hk⟩
  have hf : kv ∈ o.filter (fun kv => kv.1 = g) := List.mem_filter.mpr ⟨hmem, hk⟩
  have hne : o.filter (fun kv => kv.1 = g) ≠ [] := by
    intro hc
    rw [hc] at hf
    simp at hf
  cases hlast : (o.filter (fun kv => kv.1 = g)).getLast? with
  | none => exact absurd (List.getLast?_eq_none_iff.mp hlast) hne
  | some kv' =>
    refine ⟨kv'.2, ?_⟩
    unfold lookupLast
    rw [hlast]
    rfl

theorem getLast?_append_match {α : Type} (l1 l2 : List α) :
    (l1 ++ l2).getLast?
      = match l2.getLast? with
        | some v => some v
        | none => l1.getLast? := by
  cases hl2 : l2.getLast? with
  | none =>
    have h2 : l2 = [] := List.getLast?_eq_none_iff.mp hl2
    subst h2
    simp
  | some v =>
    have h2 : l2 ≠ [] := by
      intro hc
      subst hc
      simp at hl2
    rw [List.getLast?_append_of_ne_nil l1 h2, hl2]

theorem lookupLast_append (l1 l2 : List (String × Json)) (k : String) :
    lookupLast (l1 ++ l2) k
      = match lookupLast l2 k with
        | some v => some v
        | none => lookupLast l1 k := by
  unfold lookupLast
  rw [List.filter_append, getLast?_append_match]
  cases h2 : (l2.filter (fun kv => kv.1 = k)).getLast? with
  | none => simp [h2]
  | some kv => simp [h2]

theorem lookupLast_flatten (g : String) :
    ∀ ls : List (List (String × Json)),
      lookupLast (concatMap (fun o => o) ls) g
        = ((ls.filter (fun o => o.any (fun kv => kv.1 = g))).getLast?).bind
            (fun o => lookupLast o g) := by
  intro ls
  induction ls with
  | nil => rfl
  | cons o rest ih =>
    have hstep : lookupLast (concatMap (fun o => o) (o :: rest)) g
        = match lookupLast (concatMap (fun o => o) rest) g with
          | some v => some v
          | none => lookupLast o g :=
      lookupLast_append o _ g
    rw [hstep, ih, List.filter_cons]
    by_cases hany : o.any (fun kv => kv.1 = g) = true
    · rw [if_pos (by simpa using hany)]
      cases hfr : (rest.filter (fun o' => o'.any (fun kv => kv.1 = g))) with
      | nil => simp
      | cons f0 fr' =>
        obtain ⟨lf, hlf⟩ : ∃ lf, (f0 :: fr').getLast? = some lf := by
          cases hl : (f0 :: fr').getLast? with
          | none => exact absurd (List.getLast?_eq_none_iff.mp hl) (by simp)
          | some lf => exact ⟨lf, rfl⟩
        have hlfmem : lf ∈ f0 :: fr' := by
          have hx : lf ∈ (f0 :: fr').getLast? := by
            rw [hlf]
            rfl
          rcases List.mem_getLast?_eq_getLast hx with ⟨hne, heq⟩
          rw [heq]
          exact List.getLast_mem hne
        have hlfany : lf.any (fun kv => kv.1 = g) = true := by
          have hmem2 : lf ∈ rest.filter (fun o' => o'.any (fun kv => kv.1 = g)) := by
            rw [hfr]
            exact hlfmem
          simpa using List.of_mem_filter hmem2
        obtain ⟨v, hv⟩ := lookupLast_isSome_of_any lf g hlfany
        rw [List.getLast?_cons_cons, hlf]
        simp [hv]
    · have hany' : o.any (fun kv => kv.1 = g) = false := by
        cases ha : o.any (fun kv => kv.1 = g) with
        | true => exact absurd ha hany
        | false => rfl
      rw [if_neg (by simp [hany'])]
      have hnone : lookupLast o g = none := lookupLast_none_of_not_any o g hany'
      cases hfr : ((rest.filter (fun o' => o'.any (fun kv => kv.1 = g))).getLast?) with
      | none => simp [hnone]
      | some lf =>
        cases hlk : lookupLast lf g with
        | none => simp [hlk, hnone]
        | some v => simp [hlk]

/-- C8: on the ordinary move channel, a decoded value in which the "g"
field or a game key occurs several times is not rejected; the move
delivered to each affected game is the value of the last occurrence of
that game's key within the last object-valued "g" occurrence that
contains it. -/
theorem c8_duplicate_keys (g : GameId) (tx : Tx) (nm base : String) (v : Json)
    (hop : tx.nameOp = some { name := nm, value := some v })
    (hsplit : splitName nm = some ("p", base)) :
    (moveForGame g tx).map (fun mv => mv.move) = lastOccurrenceSpec (objEntries v) g := by
  have h1 : (moveForGame g tx).map (fun mv => mv.move) = gameMoveLookup (objEntries v) g := by
    unfold moveForGame
    simp only [hop, hsplit, if_pos rfl]
    cases gameMoveLookup (objEntries v) g <;> rfl
  rw [h1]
  unfold gameMoveLookup lastOccurrenceSpec
  rw [lookupLast_flatten]

/-- Witness for C8: the duplicate-key document of the functional tests;
game "a" receives "a2" (from the last "g" object containing "a") and
game "b" receives "b2", and both equal the spec-worded last-occurrence
lookup. -/
theorem c8_duplicate_keys_witness :
    (moveForGame "a" dupTx).map (fun mv => mv.move) = lastOccurrenceSpec (objEntries (.obj dupDoc)) "a"
    ∧ (moveForGame "a" dupTx).map (fun mv => mv.move) = some (.str "a2")
    ∧ (moveForGame "b" dupTx).map (fun mv => mv.move) = some (.str "b2") :=
  ⟨c8_duplicate_keys "a" dupTx "p/x" "x" (.obj dupDoc) rfl rfl, rfl, rfl⟩

/-- Counterexample for C9 as stated: the duplicate-cmd transaction of
the functional tests (one transaction whose value repeats the "cmd" key
three times) yields three AdminEntry records for game "a", not exactly
one per transaction. -/
theorem c9_counterexample :
    (adminForGame "a" cmdTx3).length = 3
    ∧ ¬ ((adminForGame "a" cmdTx3).length = 1) := by
  constructor
  · rfl
  · decide

theorem adminForGame_eq (g : GameId) (t : Tx) (n : String) (v : Json)
    (h : t.nameOp = some { name := n, value := some v })
    (hs : splitName n = some ("g", g)) :
    adminForGame g t
      = (cmdOccurrences (objEntries v)).map (fun c => { txid := t.txid, cmd := c }) := by
  unfold adminForGame
  simp [h, hs]

/-- C9 (amended): MoveExtractor constructs one AdminCommand per "cmd"
occurrence per transaction per game (so a transaction whose value has a
single cmd field yields exactly one), and admin commands are not merged
across transactions in the same block: a block with two admin
transactions for the same game yields their command entries
concatenated in transaction order, each transaction's entries in
in-value occurrence order. -/
theorem c9_admin_per_occurrence (g : GameId) (tok : Option String) (b : Block)
    (t1 t2 : Tx) (n1 n2 : String) (v1 v2 : Json)
    (h1 : t1.nameOp = some { name := n1, value := some v1 })
    (hs1 : splitName n1 = some ("g", g))
    (h2 : t2.nameOp = some { name := n2, value := some v2 })
    (hs2 : splitName n2 = some ("g", g))
    (htxs : b.txs = [t1, t2]) :
    (blockDataFor g tok b).admin
      = (cmdOccurrences (objEntries v1)).map (fun c => { txid := t1.txid, cmd := c })
        ++ (cmdOccurrences (objEntries v2)).map (fun c => { txid := t2.txid, cmd := c })
    ∧ (adminForGame g t1).length = (cmdOccurrences (objEntries v1)).length := by
  constructor
  · show concatMap (adminForGame g) b.txs = _
    rw [htxs]
    show adminForGame g t1 ++ (adminForGame g t2 ++ []) = _
    rw [List.append_nil, adminForGame_eq g t1 n1 v1 h1 hs1, adminForGame_eq g t2 n2 v2 h2 hs2]
  · rw [adminForGame_eq g t1 n1 v1 h1 hs1, List.length_map]

/-- Witness for C9 (amended): the concrete block with two single-cmd
admin transactions for game "a" yields both entries in transaction
order. -/
theorem c9_admin_per_occurrence_witness :
    (blockDataFor "a" none adminBlk).admin
      = (cmdOccurrences (objEntries (.obj [("cmd", .str "one")]))).map
          (fun c => { txid := adminTx1.txid, cmd := c })
        ++ (cmdOccurrences (objEntries (.obj [("cmd", .num 2)]))).map
          (fun c => { txid := adminTx2.txid, cmd := c })
    ∧ (adminForGame "a" adminTx1).length
        = (cmdOccurrences (objEntries (.obj [("cmd", .str "one")]))).length :=
  c9_admin_per_occurrence "a" none adminBlk adminTx1 adminTx2 "g/a" "g/a"
    (.obj [("cmd", .str "one")]) (.obj [("cmd", .num 2)]) rfl rfl rfl rfl rfl

/-- C10: every move payload produced by the extractor — and hence every
move inside an attach/detach message or standalone pending-move
message — carries a name field equal to the updated on-chain name with
its namespace stripped (for example "x" for "p/x"), alongside the txid,
btxid, move, inputs, out and burnt fields it copies from the
transaction. -/
theorem c10_move_name_field (g : GameId) (tx : Tx) (mv : Move)
    (h : moveForGame g tx = some mv) :
    (∃ no, tx.nameOp = some no ∧ splitName no.name = some ("p", mv.name))
    ∧ mv.txid = tx.txid ∧ mv.btxid = tx.btxid ∧ mv.game = g
    ∧ mv.inputs = tx.inputs ∧ mv.out = outMap tx.outputs
    ∧ mv.burnt = burntFor g tx.outputs := by
  unfold moveForGame at h
  cases hop : tx.nameOp with
  | none =>
    simp only [hop] at h
    exact Option.noConfusion h
  | some no =>
    simp only [hop] at h
    cases hval : no.value with
    | none =>
      simp only [hval] at h
      exact Option.noConfusion h
    | some v =>
      simp only [hval] at h
      cases hsp : splitName no.name with
      | none =>
        simp only [hsp] at h
        exact Option.noConfusion h
      | some nsbase =>
        simp only [hsp] at h
        rcases nsbase with ⟨ns, base⟩
        by_cases hns : ns = "p"
        · subst hns
          simp only [if_pos rfl] at h
          cases hlk : gameMoveLookup (objEntries v) g with
          | none =>
            simp only [hlk] at h
            simp at h
          | some mvv =>
            simp only [hlk] at h
            simp only [Option.map_some'] at h
            have hmv := Option.some.inj h
            refine ⟨⟨no, rfl, ?_⟩, ?_, ?_, ?_, ?_, ?_, ?_⟩
            · rw [hsp, ← hmv]
            · rw [← hmv]
            · rw [← hmv]
            · rw [← hmv]
            · rw [← hmv]
            · rw [← hmv]
            · rw [← hmv]
        · simp only [if_neg hns] at h
          exact Option.noConfusion h

/-- Witness for C10: the move extracted from the "p/x" update `txA`
carries name "x". -/
theorem c10_move_name_field_witness :
    (∃ no, txA.nameOp = some no ∧ splitName no.name = some ("p", mvA.name))
    ∧ mvA.txid = txA.txid ∧ mvA.btxid = txA.btxid ∧ mvA.game = "a"
    ∧ mvA.inputs = txA.inputs ∧ mvA.out = outMap txA.outputs
    ∧ mvA.burnt = burntFor "a" txA.outputs :=
  c10_move_name_field "a" txA mvA rfl
